import Mathlib

/-!
Verification of the gitignore-style matching engine in `src/rust-wasm/src/lib.rs`.

The repository code is a WASM boundary layer (handle registry, buffer
marshaling, batch filtering) around a gitignore matcher.  The registry and
boundary functions (`create_matcher`, `destroy_matcher`, `is_match`,
`batch_filter`, `build_matcher`, `filter_paths`) are embedded directly from
the source.  The pattern compilation and path matching machinery itself is
provided by the external `ignore` crate (out of scope per the spec), so it
is modelled from the spec (sections 4.1 and 4.2) and cross-checked against
the unit tests that ship in `lib.rs`.
-/

/-- Match result for a single path, from `lib.rs` (`MatchResult`).
`None` = 0, `Ignore` = 1, `Whitelist` = 2. -/
inductive MatchResult where
  | None
  | Ignore
  | Whitelist
deriving DecidableEq, Repr

/-- Integer discriminant of a `MatchResult`, as returned across the boundary. -/
def MatchResult.toCode : MatchResult → Int
  | .None => 0
  | .Ignore => 1
  | .Whitelist => 2

/-- Modelled from the spec: one item of a POSIX-style character class
(section 4.1): a single character or an inclusive range. -/
inductive ClsItem where
  | single (c : Char)
  | range (lo hi : Char)
deriving DecidableEq, Repr

/-- Modelled from the spec: one token of a compiled glob expression
(section 4.1): literal character, `?`, `*`, `**`, `**/`, or a character
class.  The glob machinery is in the external `ignore` crate, not in
`src/`. -/
inductive GlobTok where
  | lit (c : Char)
  | anyChar
  | star
  | dstar
  | dstarSlash
  | cls (neg : Bool) (items : List ClsItem)
deriving DecidableEq, Repr

/-- Does a character match one class item? -/
def clsItemMatch (c : Char) : ClsItem → Bool
  | .single d => c == d
  | .range lo hi => lo ≤ c && c ≤ hi

/-- Does a character match a (possibly negated) character class? -/
def clsMatch (neg : Bool) (items : List ClsItem) (c : Char) : Bool :=
  let m := items.any (clsItemMatch c)
  if neg then !m else m

/-- Drop characters up to and including the first `/`; `none` if there is
no `/`. -/
def chopSlash : List Char → Option (List Char)
  | [] => none
  | c :: s => if c == '/' then some s else chopSlash s

/-- Modelled from the spec: glob matching (section 4.1), with explicit
fuel so that the recursion is structural and kernel-evaluable.  Every
recursive call strictly decreases `toks.length + s.length`, so fuel
`toks.length + s.length + 1` (as supplied by `globMatch`) never runs out.
`*`, `?` and classes never cross `/`; `**` crosses `/`; `**/` matches zero
or more whole path segments. -/
def globMatchF : Nat → List GlobTok → List Char → Bool
  | 0, _, _ => false
  | fuel + 1, toks, s =>
    match toks, s with
    | [], s => s.isEmpty
    | .lit _ :: _, [] => false
    | .lit c :: p, d :: s => c == d && globMatchF fuel p s
    | .anyChar :: _, [] => false
    | .anyChar :: p, d :: s => d != '/' && globMatchF fuel p s
    | .cls _ _ :: _, [] => false
    | .cls n its :: p, d :: s => d != '/' && clsMatch n its d && globMatchF fuel p s
    | .star :: p, [] => globMatchF fuel p []
    | .star :: p, d :: s =>
        globMatchF fuel p (d :: s) || (d != '/' && globMatchF fuel (.star :: p) s)
    | .dstar :: p, [] => globMatchF fuel p []
    | .dstar :: p, d :: s => globMatchF fuel p (d :: s) || globMatchF fuel (.dstar :: p) s
    | .dstarSlash :: p, s =>
        globMatchF fuel p s ||
          match chopSlash s with
          | none => false
          | some t => globMatchF fuel (.dstarSlash :: p) t

/-- Glob matching with sufficient fuel. -/
def globMatch (toks : List GlobTok) (s : List Char) : Bool :=
  globMatchF (toks.length + s.length + 1) toks s

/-- Modelled from the spec: strip unescaped trailing spaces (section 4.1);
the last space survives when escaped with a backslash. -/
def stripTrailSpaces (cs : List Char) : List Char :=
  (go cs.reverse).reverse
where
  go : List Char → List Char
    | ' ' :: rest => if rest.head? == some '\\' then ' ' :: rest else go rest
    | l => l

/-- Modelled from the spec: scan a character class body (after `[` and the
optional negation marker).  Returns the parsed items and the number of
characters consumed, including the closing `]`; `none` when the class is
unclosed (a parse failure for the line). -/
def clsScan : List Char → Bool → List ClsItem → Option (List ClsItem × Nat)
  | [], _, _ => none
  | ']' :: rest, first, acc =>
      if first then (clsScan rest false (ClsItem.single ']' :: acc)).map (fun r => (r.1, r.2 + 1))
      else some (acc.reverse, 1)
  | '\\' :: c :: rest, _, acc =>
      (clsScan rest false (ClsItem.single c :: acc)).map (fun r => (r.1, r.2 + 2))
  | c :: '-' :: d :: rest, _, acc =>
      if d == ']' then some ((ClsItem.single '-' :: ClsItem.single c :: acc).reverse, 3)
      else (clsScan rest false (ClsItem.range c d :: acc)).map (fun r => (r.1, r.2 + 3))
  | c :: rest, _, acc =>
      (clsScan rest false (ClsItem.single c :: acc)).map (fun r => (r.1, r.2 + 1))

/-- Modelled from the spec: parse a character class starting right after the
opening `[`: optional `!`/`^` negation, then the class body. -/
def parseClsFrom (cs : List Char) : Option (Bool × List ClsItem × Nat) :=
  match cs with
  | '!' :: r => (clsScan r true []).map (fun p => (true, p.1, p.2 + 1))
  | '^' :: r => (clsScan r true []).map (fun p => (true, p.1, p.2 + 1))
  | _ => (clsScan cs true []).map (fun p => (false, p.1, p.2))

/-- Modelled from the spec: compile the remaining pattern text into glob
tokens (section 4.1).  `none` on a parse failure (trailing backslash,
malformed character class): such a line is dropped. -/
def compileGlobF : Nat → List Char → Option (List GlobTok)
  | 0, _ => none
  | fuel + 1, cs =>
    match cs with
    | [] => some []
    | '\\' :: [] => none
    | '\\' :: c :: rest => (compileGlobF fuel rest).map (GlobTok.lit c :: ·)
    | '*' :: '*' :: '/' :: rest => (compileGlobF fuel rest).map (GlobTok.dstarSlash :: ·)
    | '*' :: '*' :: rest => (compileGlobF fuel rest).map (GlobTok.dstar :: ·)
    | '*' :: rest => (compileGlobF fuel rest).map (GlobTok.star :: ·)
    | '?' :: rest => (compileGlobF fuel rest).map (GlobTok.anyChar :: ·)
    | '[' :: rest =>
        match parseClsFrom rest with
        | none => none
        | some (neg, items, n) =>
            (compileGlobF fuel (rest.drop n)).map (GlobTok.cls neg items :: ·)
    | c :: rest => (compileGlobF fuel rest).map (GlobTok.lit c :: ·)

/-- Glob compilation with sufficient fuel: every step of `compileGlobF`
consumes at least one character, so `cs.length + 1` steps always reach the
base case. -/
def compileGlob (cs : List Char) : Option (List GlobTok) :=
  compileGlobF (cs.length + 1) cs

/-- One compiled pattern, per the spec's data model (section 3): the glob,
the anchoring flag, the directory-only flag and the negation flag.
`source_order` is the rule's position in the containing list. -/
structure Rule where
  glob : List GlobTok
  anchored : Bool
  dirOnly : Bool
  negated : Bool
deriving DecidableEq, Repr

/-- Modelled from the spec: compile one pattern line into a rule
(section 4.1), or `none` when the line is blank, a comment, or fails to
parse.  This is the per-line work done by `GitignoreBuilder.add_line` in
the external `ignore` crate, called from `build_matcher` in `lib.rs`. -/
def parseLine (cs0 : List Char) : Option Rule :=
  let cs := stripTrailSpaces cs0
  if cs.isEmpty then none
  else if cs.head? == some '#' then none
  else
    let neg := cs.head? == some '!'
    let cs1 := if neg then cs.tail else cs
    let dirOnly := cs1.getLast? == some '/' && cs1.dropLast.getLast? != some '\\'
    let cs2 := if dirOnly then cs1.dropLast else cs1
    let anch := cs2.contains '/'
    let cs3 := match cs2 with
      | '/' :: rest => rest
      | l => l
    (compileGlob cs3).map fun g =>
      { glob := g, anchored := anch, dirOnly := dirOnly, negated := neg }

/-- The terminal segment of a path: everything after the last `/`. -/
def baseName (cs : List Char) : List Char :=
  (cs.reverse.takeWhile (· != '/')).reverse

/-- The immediate parent directory of a path, or `none` at the root. -/
def parentPath (cs : List Char) : Option (List Char) :=
  match cs.reverse.dropWhile (· != '/') with
  | [] => none
  | _ :: t => some t.reverse

/-- The chain of ancestor directories, with explicit fuel so that the
recursion is structural: each parent is strictly shorter than its child,
so fuel `cs.length + 1` (as supplied by `ancestors`) never runs out. -/
def ancestorsF : Nat → List Char → List (List Char)
  | 0, _ => []
  | fuel + 1, cs =>
    match parentPath cs with
    | none => []
    | some p => p :: ancestorsF fuel p

/-- The chain of ancestor directories of a path, nearest first, up to but
not including the root (spec section 4.2, step 2). -/
def ancestors (cs : List Char) : List (List Char) :=
  ancestorsF (cs.length + 1) cs

/-- Modelled from the spec: does one rule match one candidate
(section 4.2, step 3)?  The `directory_only` constraint must be satisfied
by the candidate's directory-ness; anchored globs run against the full
path, unanchored ones against the terminal segment. -/
def matchRule (r : Rule) (path : List Char) (isDir : Bool) : Bool :=
  (!r.dirOnly || isDir) && globMatch r.glob (if r.anchored then path else baseName path)

/-- Modelled from the spec: scan all rules in ascending `source_order` and
keep the last (highest `source_order`) match for this candidate; the
recorded value is the winning rule's negation flag (section 4.2). -/
def decideCand (rules : List Rule) (cand : List Char) (isDir : Bool) : Option Bool :=
  rules.foldl (fun acc r => if matchRule r cand isDir then some r.negated else acc) none

/-- Path evaluation, embedding `match_path` from `lib.rs`; the matching
semantics behind `Gitignore::matched_path_or_any_parents` is modelled from
the spec (section 4.2): the first candidate in the chain (the path itself,
then each ancestor as a directory) with any matching rule decides the
outcome. -/
def match_path (rules : List Rule) (path : String) (isDir : Bool) : MatchResult :=
  let cs := path.data
  let cands := (cs, isDir) :: (ancestors cs).map (fun a => (a, true))
  match cands.findSome? (fun c => decideCand rules c.1 c.2) with
  | none => MatchResult.None
  | some false => MatchResult.Ignore
  | some true => MatchResult.Whitelist

/-- Split a character list on a separator character, keeping empty pieces:
the embedding of Rust's `str::split(sep)` / `slice::split`. -/
def splitOnChar (sep : Char) : List Char → List (List Char)
  | [] => [[]]
  | c :: rest =>
    match splitOnChar sep rest with
    | [] => [[]]
    | l :: ls => if c == sep then [] :: l :: ls else (c :: l) :: ls

/-- The lines of a string, split on `'\n'`, as in `paths.split('\n')`. -/
def splitLines (s : String) : List String :=
  (splitOnChar '\n' s.data).map (fun l => String.mk l)

/-- Compile newline-separated pattern text into a rule list; the
UTF-8-valid specialization of `build_matcher` from `lib.rs` (one
`parseLine` per line, failed lines dropped). -/
def compileText (s : String) : List Rule :=
  (splitOnChar '\n' s.data).filterMap parseLine

/-- The per-line outcome used by `filter_paths` in `lib.rs`: a line ending
in `/` is evaluated as a directory after stripping the trailing slash
(`strip_suffix('/')`); otherwise as a file. -/
def lineOutcome (rules : List Rule) (line : String) : MatchResult :=
  if line.data.getLast? == some '/' then
    match_path rules (String.mk line.data.dropLast) true
  else
    match_path rules line false

/-- Does `filter_paths` keep this (non-empty) line?  Kept exactly when the
outcome is not `Ignore`. -/
def keepLine (rules : List Rule) (line : String) : Bool :=
  lineOutcome rules line != MatchResult.Ignore

/-- Embedding of `filter_paths` from `lib.rs`: split on `'\n'`, skip empty
lines, evaluate each line (directory convention above) and keep the
original line unless the outcome is `Ignore`. -/
def filter_paths (rules : List Rule) (text : String) : List String :=
  (splitLines text).filter (fun l => !(l == "") && keepLine rules l)

/-- Is this byte a UTF-8 continuation byte (`0x80..=0xBF`)? -/
def isCont (b : Nat) : Bool := 0x80 ≤ b && b ≤ 0xBF

/-- Strict UTF-8 decoding of a byte sequence, as done by
`std::str::from_utf8` in `build_matcher` and `is_match`: rejects stray
continuation bytes, overlong forms, surrogates and values above
`0x10FFFF`. -/
def decodeUtf8 : List Nat → Option (List Char)
  | [] => some []
  | b :: rest =>
    if b ≤ 0x7F then (decodeUtf8 rest).map (Char.ofNat b :: ·)
    else if 0xC2 ≤ b && b ≤ 0xDF then
      match rest with
      | b1 :: rest1 =>
        if isCont b1 then
          (decodeUtf8 rest1).map (Char.ofNat ((b - 0xC0) * 0x40 + (b1 - 0x80)) :: ·)
        else none
      | [] => none
    else if 0xE0 ≤ b && b ≤ 0xEF then
      match rest with
      | b1 :: b2 :: rest2 =>
        let okB1 :=
          if b == 0xE0 then 0xA0 ≤ b1 && b1 ≤ 0xBF
          else if b == 0xED then 0x80 ≤ b1 && b1 ≤ 0x9F
          else isCont b1
        if okB1 && isCont b2 then
          (decodeUtf8 rest2).map
            (Char.ofNat ((b - 0xE0) * 0x1000 + (b1 - 0x80) * 0x40 + (b2 - 0x80)) :: ·)
        else none
      | _ => none
    else if 0xF0 ≤ b && b ≤ 0xF4 then
      match rest with
      | b1 :: b2 :: b3 :: rest3 =>
        let okB1 :=
          if b == 0xF0 then 0x90 ≤ b1 && b1 ≤ 0xBF
          else if b == 0xF4 then 0x80 ≤ b1 && b1 ≤ 0x8F
          else isCont b1
        if okB1 && isCont b2 && isCont b3 then
          (decodeUtf8 rest3).map
            (Char.ofNat
              ((b - 0xF0) * 0x40000 + (b1 - 0x80) * 0x1000 + (b2 - 0x80) * 0x40 + (b3 - 0x80)) :: ·)
        else none
      | _ => none
    else none

/-- Split a byte list on a separator byte, keeping empty pieces: the
embedding of `patterns.split(|&b| b == b'\n')` in `build_matcher`. -/
def splitSep (sep : Nat) : List Nat → List (List Nat)
  | [] => [[]]
  | b :: rest =>
    match splitSep sep rest with
    | [] => [[]]
    | l :: ls => if b == sep then [] :: l :: ls else (b :: l) :: ls

/-- One line of `build_matcher`'s loop: decode the line's bytes as UTF-8
(silently skipped when invalid) and compile it (silently skipped when the
line fails to parse). -/
def lineToRule (l : List Nat) : Option Rule :=
  (decodeUtf8 l).bind parseLine

/-- The loop of `build_matcher`: each line contributes a rule or is
silently dropped; surviving rules keep their relative order. -/
def compileLines (ls : List (List Nat)) : List Rule :=
  ls.filterMap lineToRule

/-- Embedding of `build_matcher` from `lib.rs`: split the pattern bytes on
`b'\n'` and feed each line through `add_line`, ignoring per-line
failures. -/
def build_matcher (bytes : List Nat) : List Rule :=
  compileLines (splitSep 10 bytes)

/-- Interpretation of a WASM `i32` produced from a `u32` value, as in
`id as i32` in `create_matcher`. -/
def toI32 (n : Nat) : Int :=
  if n % 2 ^ 32 < 2 ^ 31 then ((n % 2 ^ 32 : Nat) : Int)
  else ((n % 2 ^ 32 : Nat) : Int) - 2 ^ 32

/-- The process-wide mutable state of `lib.rs`: the `NEXT_ID` counter (a
`u32`, kept below `2^32`) and the `MATCHERS` table mapping ids to
compiled rule sets.  The table is an association list; the most recent
insertion shadows older entries, matching `HashMap` observably. -/
structure EngineState where
  next : Nat
  tbl : List (Nat × List Rule)
deriving DecidableEq, Repr

/-- The state at instance start: `NEXT_ID = 1`, empty registry. -/
def initState : EngineState := ⟨1, []⟩

/-- Registry lookup (`matchers().get(&id)`). -/
def lookup (s : EngineState) (h : Nat) : Option (List Rule) :=
  (s.tbl.find? (fun e => e.1 == h)).map (fun e => e.2)

/-- The registry mutation of a successful `create_matcher`: fetch-and-add
on `NEXT_ID` (wrapping at `2^32`), insert under the old value, return it
as an `i32`. -/
def regCreate (s : EngineState) (rules : List Rule) : EngineState × Int :=
  (⟨(s.next + 1) % 2 ^ 32, (s.next, rules) :: s.tbl⟩, toI32 s.next)

/-- Reading `len` bytes of WASM linear memory starting at `ptr`. -/
def readMem (mem : Nat → Nat) (ptr len : Nat) : List Nat :=
  (List.range len).map (fun i => mem (ptr + i))

/-- Embedding of `create_matcher` from `lib.rs`.  `mem` is the WASM linear
memory.  Returns the new state and the `i32` result: a handle on success,
`-1` for a negative length, `-2` for a null pointer with positive length.
(The `-3` branch for `builder.build()` failure is unreachable in the
model: per the spec, whole-set compile failure is rare and per-line
failures are swallowed.) -/
def create_matcher (mem : Nat → Nat) (s : EngineState) (ptr len : Int) : EngineState × Int :=
  if len < 0 then (s, -1)
  else if 0 < len ∧ ptr = 0 then (s, -2)
  else regCreate s (build_matcher (if len = 0 then [] else readMem mem ptr.toNat len.toNat))

/-- Embedding of `destroy_matcher` from `lib.rs`: no-op for non-positive
handles, otherwise remove the entry (all entries with that key). -/
def destroy_matcher (s : EngineState) (handle : Int) : EngineState :=
  if handle ≤ 0 then s
  else ⟨s.next, s.tbl.filter (fun e => !(e.1 == handle.toNat))⟩

/-- Embedding of `is_match` from `lib.rs`: argument checks (`-1`, `-2`),
UTF-8 decoding (`-3`), registry lookup (`-4`), then path evaluation whose
`MatchResult` discriminant (0/1/2) is returned. -/
def is_match (s : EngineState) (mem : Nat → Nat) (handle pptr plen isd : Int) : Int :=
  if handle ≤ 0 then -1
  else if plen < 0 ∨ (0 < plen ∧ pptr = 0) then -2
  else
    match decodeUtf8 (if plen = 0 then [] else readMem mem pptr.toNat plen.toNat) with
    | none => -3
    | some cs =>
      match lookup s handle.toNat with
      | none => -4
      | some rules => (match_path rules (String.mk cs) (isd != 0)).toCode

/-- Embedding of `batch_filter` from `lib.rs`.  `al` models the Rust
allocator: the address of the leaked result buffer for a given byte
length (never null in Rust).  The result is the returned `i32` and the
pair written at `result_info_ptr` (`none` when an error path returns
before writing): `(0, 0)` when no path is kept, otherwise the buffer
address and the byte length of the newline-joined kept lines. -/
def batch_filter (al : Nat → Nat) (s : EngineState) (mem : Nat → Nat)
    (handle pptr plen infoPtr : Int) : Int × Option (Nat × Nat) :=
  if handle ≤ 0 then (-1, none)
  else if infoPtr = 0 then (-2, none)
  else if plen < 0 ∨ (0 < plen ∧ pptr = 0) then (-3, none)
  else
    match decodeUtf8 (if plen = 0 then [] else readMem mem pptr.toNat plen.toNat) with
    | none => (-4, none)
    | some cs =>
      match lookup s handle.toNat with
      | none => (-5, none)
      | some rules =>
        let kept := filter_paths rules (String.mk cs)
        if kept.isEmpty then (0, some (0, 0))
        else
          let len := (String.intercalate "\n" kept).utf8ByteSize
          ((kept.length : Int), some (al len, len))

/-- A registry operation: a successful create (with the compiled rules it
stores) or a destroy call. -/
inductive Op where
  | create (rules : List Rule)
  | destroy (h : Int)

/-- The state transition of one operation. -/
def applyOp (s : EngineState) : Op → EngineState
  | .create rules => (regCreate s rules).1
  | .destroy h => destroy_matcher s h

/-- Run a sequence of operations. -/
def run (s : EngineState) (ops : List Op) : EngineState :=
  ops.foldl applyOp s

/-- Number of creates in an operation sequence. -/
def createCount : List Op → Nat
  | [] => 0
  | .create _ :: ops => createCount ops + 1
  | .destroy _ :: ops => createCount ops

/-- The handles returned by the create calls of a run, in order. -/
def returnedHandles (s : EngineState) : List Op → List Int
  | [] => []
  | .create rules :: ops => (regCreate s rules).2 :: returnedHandles (regCreate s rules).1 ops
  | .destroy h :: ops => returnedHandles (destroy_matcher s h) ops

/-- The registry invariant: `NEXT_ID` is positive and every live key is a
previously issued id (positive and below `NEXT_ID`). -/
def EngineInv (s : EngineState) : Prop :=
  0 < s.next ∧ ∀ e ∈ s.tbl, 0 < e.1 ∧ e.1 < s.next

/-- `k` is not a key of the registry. -/
def NoKey (s : EngineState) (k : Nat) : Prop :=
  ∀ e ∈ s.tbl, e.1 ≠ k

/-- `n` successive `create_matcher` calls with an empty pattern buffer
(length 0, null pointer), each of which succeeds and stores an empty rule
set. -/
def createN : Nat → EngineState → EngineState
  | 0, s => s
  | n + 1, s => createN n (create_matcher (fun _ => 0) s 0 0).1

/-- A small concrete registry state: one matcher for `"*.log"` stored
under handle 1. -/
def demoState : EngineState := (regCreate initState (compileText "*.log")).1

/-- A small concrete linear memory: the bytes of `"b.txt"` at address
100. -/
def demoMem : Nat → Nat := fun i => [98, 46, 116, 120, 116].getD (i - 100) 0

example : match_path (compileText "*.log\n!keep.log\nkeep.log") "keep.log" false = .Ignore := by decide

example : match_path (compileText "build/") "build/output/file.o" false = .Ignore := by decide

example : match_path (compileText "build/") "build" false = .None := by decide

example : match_path (compileText "build/") "build" true = .Ignore := by decide

example : match_path (compileText "/only_root.txt") "only_root.txt" false = .Ignore := by decide

example : match_path (compileText "/only_root.txt") "nested/only_root.txt" false = .None := by decide

example : filter_paths (compileText "*.log\nbuild/")
    "src/main.go\ndebug.log\nerror.log\nbuild/\nREADME.md"
    = ["src/main.go", "README.md"] := by decide

example : build_matcher [42, 46, 108, 111, 103] = compileText "*.log" := by decide

example : decodeUtf8 [255] = none := by decide

example : decodeUtf8 [97, 195, 169] = some ['a', 'é'] := by decide

example : is_match (regCreate initState (compileText "*.log")).1 (fun _ => 0) 1 0 0 0 = 0 := by decide

example :
    is_match (destroy_matcher (regCreate initState (compileText "*.log")).1 1)
      (fun _ => 0) 1 0 0 0 = -4 := by decide

example :
    batch_filter (fun _ => 7) (regCreate initState (compileText "*.log")).1 (fun _ => 0)
      1 0 0 1 = (0, some (0, 0)) := by decide

theorem foldl_lastMatch (p : Rule → Bool) (rules : List Rule) (acc : Option Bool) :
    rules.foldl (fun a r => if p r then some r.negated else a) acc
      = match rules.reverse.find? p with
        | some r => some r.negated
        | none => acc := by
  induction rules generalizing acc with
  | nil => rfl
  | cons r rs ih =>
    simp only [List.foldl_cons, List.reverse_cons, List.find?_append, ih]
    cases hf : rs.reverse.find? p with
    | some r' => simp [Option.or]
    | none =>
      cases hp : p r <;> simp [hp, Option.or]

/-- Within one candidate, the recorded match is the matching rule with the
highest `source_order` (the last one in declaration order). -/
theorem decideCand_lastMatch (rules : List Rule) (cand : List Char) (isDir : Bool) :
    decideCand rules cand isDir
      = (rules.reverse.find? (fun r => matchRule r cand isDir)).map (fun r => r.negated) := by
  unfold decideCand
  rw [foldl_lastMatch]
  cases hf : rules.reverse.find? (fun r => matchRule r cand isDir) <;> simp

/-- C2: within one candidate path, the matching rule with the highest
source order decides the outcome (last match wins): `decideCand` records
the last matching rule's negation flag, and compiling
`"*.log"`, `"!keep.log"`, `"keep.log"` then evaluating `"keep.log"` as a
file yields `Ignore` — the third rule overrides the negation. -/
theorem C2_last_match_wins :
    (∀ (rules : List Rule) (cand : List Char) (isDir : Bool),
        decideCand rules cand isDir
          = (rules.reverse.find? (fun r => matchRule r cand isDir)).map (fun r => r.negated)) ∧
    match_path (compileText "*.log\n!keep.log\nkeep.log") "keep.log" false
      = MatchResult.Ignore :=
  ⟨decideCand_lastMatch, by decide⟩

/-- C3: a directory-only rule matching an ancestor directory propagates
its outcome to every descendant: with the single line `"build/"`, the
path `"build/output/file.o"` evaluated as a file is `Ignore`, even though
no rule's glob matches that full path string (or its basename)
directly. -/
theorem C3_ancestor_propagation :
    match_path (compileText "build/") "build/output/file.o" false = MatchResult.Ignore ∧
    (compileText "build/").all
      (fun r =>
        !globMatch r.glob "build/output/file.o".data &&
        !globMatch r.glob (baseName "build/output/file.o".data)) = true := by
  decide

/-- C4: a rule from a pattern with a trailing slash applies only to
directories: with the single line `"build/"`, evaluating `"build"` as a
file yields `None` (unmatched) while evaluating it as a directory yields
`Ignore`. -/
theorem C4_directory_only :
    match_path (compileText "build/") "build" false = MatchResult.None ∧
    match_path (compileText "build/") "build" true = MatchResult.Ignore := by
  decide

/-- C9: a pattern starting with a slash is anchored to the root: with the
single line `"/only_root.txt"`, the path `"only_root.txt"` as a file is
`Ignore` while `"nested/only_root.txt"` as a file is `None`
(unmatched). -/
theorem C9_anchoring :
    match_path (compileText "/only_root.txt") "only_root.txt" false = MatchResult.Ignore ∧
    match_path (compileText "/only_root.txt") "nested/only_root.txt" false
      = MatchResult.None := by
  decide

/-- C1 (amended): the batch filter returns an order-preserving subsequence
of the input lines, and a NON-EMPTY line is kept exactly when its
evaluation (with the trailing-slash directory convention) is not
`Ignore`; empty lines are always dropped without being evaluated. -/
theorem C1_filter_characterization (rules : List Rule) (text : String) :
    List.Sublist (filter_paths rules text) (splitLines text) ∧
    ∀ l ∈ splitLines text,
      (l ∈ filter_paths rules text ↔ l ≠ "" ∧ lineOutcome rules l ≠ MatchResult.Ignore) := by
  constructor
  · exact List.filter_sublist _
  · intro l hl
    simp [filter_paths, List.mem_filter, hl, keepLine]

/-- Witness for C1 at a concrete rule set, input text and line. -/
theorem C1_witness :
    ("a.txt" ∈ filter_paths (compileText "*.log") "a.txt\nb.log"
      ↔ "a.txt" ≠ "" ∧ lineOutcome (compileText "*.log") "a.txt" ≠ MatchResult.Ignore) :=
  (C1_filter_characterization (compileText "*.log") "a.txt\nb.log").2 "a.txt" (by decide)

/-- Counterexample to C1 as stated: an empty input line evaluates to
`None` (so it is neither `Ignored` nor in the dropped-iff-`Ignored` set),
yet the batch filter drops it.  So "kept iff `Unmatched` or `Whitelisted`"
fails for empty lines, which are dropped unconditionally. -/
theorem C1_empty_line_counterexample :
    "" ∈ splitLines "a.txt\n" ∧
    "" ∉ filter_paths (compileText "") "a.txt\n" ∧
    lineOutcome (compileText "") "" ≠ MatchResult.Ignore := by
  decide

theorem lookup_eq_none_of_noKey (s : EngineState) (k : Nat) (h : NoKey s k) :
    lookup s k = none := by
  unfold lookup
  rw [List.find?_eq_none.mpr]
  · rfl
  · intro e he
    simpa using h e he

theorem run_cons (s : EngineState) (op : Op) (ops : List Op) :
    run s (op :: ops) = run (applyOp s op) ops := rfl

theorem run_inv : ∀ (ops : List Op) (s : EngineState), EngineInv s →
    s.next + createCount ops < 2 ^ 32 →
    EngineInv (run s ops) ∧ (run s ops).next = s.next + createCount ops := by
  intro ops
  induction ops with
  | nil => intro s hs _; exact ⟨hs, by simp [run, createCount]⟩
  | cons op ops ih =>
    intro s hs hb
    cases op with
    | create rules =>
      have hcc : createCount (Op.create rules :: ops) = createCount ops + 1 := rfl
      rw [hcc] at hb
      have hlt : s.next + 1 < 2 ^ 32 := by omega
      have hnext : (applyOp s (Op.create rules)).next = s.next + 1 := by
        simp only [applyOp, regCreate]
        exact Nat.mod_eq_of_lt hlt
      have hinv : EngineInv (applyOp s (Op.create rules)) := by
        refine ⟨?_, ?_⟩
        · rw [hnext]; omega
        · intro e he
          rw [hnext]
          simp only [applyOp, regCreate, List.mem_cons] at he
          rcases he with rfl | he
          · exact ⟨hs.1, by omega⟩
          · have := hs.2 e he
            omega
      have := ih (applyOp s (Op.create rules)) hinv (by rw [hnext]; omega)
      rw [run_cons]
      refine ⟨this.1, ?_⟩
      rw [this.2, hnext, hcc]
      omega
    | destroy h =>
      have hcc : createCount (Op.destroy h :: ops) = createCount ops := rfl
      rw [hcc] at hb
      have hnext : (applyOp s (Op.destroy h)).next = s.next := by
        simp only [applyOp, destroy_matcher]
        split <;> rfl
      have hinv : EngineInv (applyOp s (Op.destroy h)) := by
        refine ⟨by rw [hnext]; exact hs.1, ?_⟩
        intro e he
        rw [hnext]
        simp only [applyOp, destroy_matcher] at he
        split at he
        · exact hs.2 e he
        · exact hs.2 e (List.mem_of_mem_filter he)
      have := ih (applyOp s (Op.destroy h)) hinv (by rw [hnext]; omega)
      rw [run_cons]
      exact ⟨this.1, by rw [this.2, hnext, hcc]⟩

theorem run_noKey : ∀ (ops : List Op) (s : EngineState) (k : Nat), NoKey s k →
    k < s.next → s.next + createCount ops < 2 ^ 32 →
    NoKey (run s ops) k ∧ k < (run s ops).next := by
  intro ops
  induction ops with
  | nil => intro s k h hk _; exact ⟨h, hk⟩
  | cons op ops ih =>
    intro s k h hk hb
    cases op with
    | create rules =>
      have hcc : createCount (Op.create rules :: ops) = createCount ops + 1 := rfl
      rw [hcc] at hb
      have hnext : (applyOp s (Op.create rules)).next = s.next + 1 :=
        Nat.mod_eq_of_lt (by omega)
      have hkey : NoKey (applyOp s (Op.create rules)) k := by
        intro e he
        simp only [applyOp, regCreate, List.mem_cons] at he
        rcases he with rfl | he
        · simp; omega
        · exact h e he
      rw [run_cons]
      exact ih _ k hkey (by rw [hnext]; omega) (by rw [hnext]; omega)
    | destroy h' =>
      have hcc : createCount (Op.destroy h' :: ops) = createCount ops := rfl
      rw [hcc] at hb
      have hnext : (applyOp s (Op.destroy h')).next = s.next := by
        simp only [applyOp, destroy_matcher]
        split <;> rfl
      have hkey : NoKey (applyOp s (Op.destroy h')) k := by
        intro e he
        simp only [applyOp, destroy_matcher] at he
        split at he
        · exact h e he
        · exact h e (List.mem_of_mem_filter he)
      rw [run_cons]
      exact ih _ k hkey (by rw [hnext]; omega) (by rw [hnext]; omega)

theorem destroy_noKey (s : EngineState) (h : Int) (hp : 0 < h) :
    NoKey (destroy_matcher s h) h.toNat := by
  intro e he
  simp only [destroy_matcher, if_neg (by omega : ¬ h ≤ 0)] at he
  have := List.of_mem_filter he
  simpa using this

theorem destroy_next (s : EngineState) (h : Int) :
    (destroy_matcher s h).next = s.next := by
  unfold destroy_matcher
  split <;> rfl

theorem is_match_not_found (s : EngineState) (mem : Nat → Nat) (hnd pp pl d : Int)
    (h1 : 0 < hnd) (h2 : ¬(pl < 0 ∨ (0 < pl ∧ pp = 0)))
    (cs : List Char)
    (hcs : decodeUtf8 (if pl = 0 then [] else readMem mem pp.toNat pl.toNat) = some cs)
    (hlook : lookup s hnd.toNat = none) :
    is_match s mem hnd pp pl d = -4 := by
  unfold is_match
  rw [if_neg (by omega : ¬ hnd ≤ 0), if_neg h2]
  simp only [hcs, hlook]

theorem batch_filter_not_found (al : Nat → Nat) (s : EngineState) (mem : Nat → Nat)
    (hnd pp pl ip : Int)
    (h1 : 0 < hnd) (hip : ip ≠ 0) (h2 : ¬(pl < 0 ∨ (0 < pl ∧ pp = 0)))
    (cs : List Char)
    (hcs : decodeUtf8 (if pl = 0 then [] else readMem mem pp.toNat pl.toNat) = some cs)
    (hlook : lookup s hnd.toNat = none) :
    batch_filter al s mem hnd pp pl ip = (-5, none) := by
  unfold batch_filter
  rw [if_neg (by omega : ¬ hnd ≤ 0), if_neg hip, if_neg h2]
  simp only [hcs, hlook]

/-- C5 (amended): after `destroy(h)` of an issued handle `h`, any
subsequent `is_match(h, ...)`/`batch_filter(h, ...)` with otherwise-valid
arguments returns the `NotFound` code (`-4` resp. `-5`), provided fewer
than `2^32` creates intervene (the `u32` id counter wraps there); and
destroying a non-positive or unknown handle leaves the registry
unchanged. -/
theorem C5_handle_lifecycle :
    (∀ (s : EngineState) (hnd : Int) (ops : List Op) (mem : Nat → Nat)
        (pp pl d ip : Int) (al : Nat → Nat),
        0 < hnd → hnd.toNat < s.next →
        s.next + createCount ops < 2 ^ 32 →
        0 ≤ pl → (pl = 0 ∨ pp ≠ 0) →
        (decodeUtf8 (if pl = 0 then [] else readMem mem pp.toNat pl.toNat)).isSome →
        ip ≠ 0 →
        is_match (run (destroy_matcher s hnd) ops) mem hnd pp pl d = -4 ∧
        batch_filter al (run (destroy_matcher s hnd) ops) mem hnd pp pl ip = (-5, none)) ∧
    (∀ (s : EngineState) (hnd : Int), hnd ≤ 0 → destroy_matcher s hnd = s) ∧
    (∀ (s : EngineState) (hnd : Int), lookup s hnd.toNat = none →
        destroy_matcher s hnd = s) := by
  refine ⟨?_, ?_, ?_⟩
  · intro s hnd ops mem pp pl d ip al h1 h2 h3 h4 h5 h6 h7
    obtain ⟨cs, hcs⟩ := Option.isSome_iff_exists.mp h6
    have habs := run_noKey ops (destroy_matcher s hnd) hnd.toNat
      (destroy_noKey s hnd h1) (by rw [destroy_next]; exact h2)
      (by rw [destroy_next]; exact h3)
    have hlook := lookup_eq_none_of_noKey _ _ habs.1
    have hval : ¬(pl < 0 ∨ (0 < pl ∧ pp = 0)) := by omega
    exact ⟨is_match_not_found _ mem hnd pp pl d h1 hval cs hcs hlook,
      batch_filter_not_found al _ mem hnd pp pl ip h1 h7 hval cs hcs hlook⟩
  · intro s hnd hle
    unfold destroy_matcher
    rw [if_pos hle]
  · intro s hnd hl
    unfold destroy_matcher
    split
    · rfl
    · have hfind : s.tbl.find? (fun e => e.1 == hnd.toNat) = none := by
        unfold lookup at hl
        exact Option.map_eq_none'.mp hl
      have hall : ∀ e ∈ s.tbl, (!(e.1 == hnd.toNat)) = true := by
        intro e he
        have := List.find?_eq_none.mp hfind e he
        simpa using this
      cases s with
      | mk n t =>
        simp only [EngineState.mk.injEq, true_and]
        exact List.filter_eq_self.mpr hall

/-- Witness for C5 at a concrete state (one live matcher under handle 1),
destroying handle 1 and calling both query entry points. -/
theorem C5_witness :
    is_match (run (destroy_matcher (regCreate initState []).1 1) []) (fun _ => 0)
      1 0 0 0 = -4 ∧
    batch_filter (fun _ => 1) (run (destroy_matcher (regCreate initState []).1 1) [])
      (fun _ => 0) 1 0 0 1 = (-5, none) :=
  C5_handle_lifecycle.1 (regCreate initState []).1 1 [] (fun _ => 0) 0 0 0 1 (fun _ => 1)
    (by decide) (by decide) (by decide) (by decide) (Or.inl rfl) (by decide) (by decide)

theorem createN_next : ∀ (n : Nat) (s : EngineState), s.next < 2 ^ 32 →
    (createN n s).next = (s.next + n) % 2 ^ 32 := by
  intro n
  induction n with
  | zero =>
    intro s hs
    simp only [createN]
    omega
  | succ n ih =>
    intro s hs
    have hc : ((create_matcher (fun _ => 0) s 0 0).1).next = (s.next + 1) % 2 ^ 32 := rfl
    have hlt : ((create_matcher (fun _ => 0) s 0 0).1).next < 2 ^ 32 := by
      rw [hc]; exact Nat.mod_lt _ (by norm_num)
    have := ih (create_matcher (fun _ => 0) s 0 0).1 hlt
    show (createN n (create_matcher (fun _ => 0) s 0 0).1).next = _
    rw [this, hc, Nat.mod_add_mod]
    omega

theorem createN_out : ∀ (n : Nat) (s : EngineState),
    createN (n + 1) s = (create_matcher (fun _ => 0) (createN n s) 0 0).1 := by
  intro n
  induction n with
  | zero => intro s; rfl
  | succ n ih =>
    intro s
    show createN (n + 1) (create_matcher (fun _ => 0) s 0 0).1 = _
    rw [ih]
    rfl

theorem is_match_found (s : EngineState) (mem : Nat → Nat) (hnd pp pl d : Int)
    (h1 : 0 < hnd) (h2 : ¬(pl < 0 ∨ (0 < pl ∧ pp = 0)))
    (cs : List Char)
    (hcs : decodeUtf8 (if pl = 0 then [] else readMem mem pp.toNat pl.toNat) = some cs)
    (rules : List Rule) (hlook : lookup s hnd.toNat = some rules) :
    is_match s mem hnd pp pl d = (match_path rules (String.mk cs) (d != 0)).toCode := by
  unfold is_match
  rw [if_neg (by omega : ¬ hnd ≤ 0), if_neg h2]
  simp only [hcs, hlook]

/-- Counterexample to C5 as stated: handles are reused after the `u32`
counter wraps.  Destroy handle 1, then run `2^32` further creates: the id
counter comes back around, handle 1 is live again, and `is_match(1, ...)`
returns the match outcome `0`, not the `NotFound` code `-4`. -/
theorem C5_wraparound_counterexample :
    is_match
        (createN (2 ^ 32)
          (destroy_matcher (create_matcher (fun _ => 0) initState 0 0).1 1))
        (fun _ => 0) 1 0 0 0 ≠ -4 ∧
    is_match
        (createN (2 ^ 32)
          (destroy_matcher (create_matcher (fun _ => 0) initState 0 0).1 1))
        (fun _ => 0) 1 0 0 0 = 0 := by
  have hd : destroy_matcher (create_matcher (fun _ => 0) initState 0 0).1 1
      = ⟨2, []⟩ := by decide
  have hn : (createN (2 ^ 32 - 1) (⟨2, []⟩ : EngineState)).next = 1 := by
    rw [createN_next _ _ (by norm_num)]
    norm_num
  have hsplit : createN (2 ^ 32) (⟨2, []⟩ : EngineState)
      = (create_matcher (fun _ => 0) (createN (2 ^ 32 - 1) ⟨2, []⟩) 0 0).1 := by
    have := createN_out (2 ^ 32 - 1) (⟨2, []⟩ : EngineState)
    rw [show (2 : Nat) ^ 32 - 1 + 1 = 2 ^ 32 by norm_num] at this
    exact this
  have hlook :
      lookup (create_matcher (fun _ => 0) (createN (2 ^ 32 - 1) ⟨2, []⟩) 0 0).1
        ((1 : Int).toNat) = some [] := by
    show Option.map (fun e => e.2)
        (List.find? (fun e => e.1 == 1)
          (((createN (2 ^ 32 - 1) (⟨2, []⟩ : EngineState)).next, ([] : List Rule)) ::
            (createN (2 ^ 32 - 1) (⟨2, []⟩ : EngineState)).tbl)) = some []
    rw [hn]
    rfl
  have hm : is_match (create_matcher (fun _ => 0) (createN (2 ^ 32 - 1) ⟨2, []⟩) 0 0).1
      (fun _ => 0) 1 0 0 0 = 0 := by
    rw [is_match_found _ _ 1 0 0 0 (by omega) (by omega) [] (by decide) [] hlook]
    decide
  rw [hd, hsplit]
  exact ⟨by rw [hm]; decide, hm⟩

theorem toI32_pos (n : Nat) (h0 : 0 < n) (h1 : n < 2 ^ 31) : 0 < toI32 n := by
  unfold toI32
  rw [Nat.mod_eq_of_lt (by omega : n < 2 ^ 32)]
  rw [if_pos h1]
  omega

theorem createCount_append : ∀ (a b : List Op),
    createCount (a ++ b) = createCount a + createCount b := by
  intro a b
  induction a with
  | nil => simp [createCount]
  | cons op ops ih =>
    cases op with
    | create rules =>
      show createCount (ops ++ b) + 1 = createCount ops + 1 + createCount b
      rw [ih]
      omega
    | destroy h =>
      show createCount (ops ++ b) = createCount ops + createCount b
      exact ih

theorem handles_pos : ∀ (ops : List Op) (s : EngineState), 0 < s.next →
    s.next + createCount ops ≤ 2 ^ 31 →
    ∀ h ∈ returnedHandles s ops, 0 < h := by
  intro ops
  induction ops with
  | nil => intro s _ _ h hh; simp [returnedHandles] at hh
  | cons op ops ih =>
    intro s hs hb h hh
    cases op with
    | create rules =>
      have hcc : createCount (Op.create rules :: ops) = createCount ops + 1 := rfl
      rw [hcc] at hb
      simp only [returnedHandles, List.mem_cons] at hh
      rcases hh with rfl | hh
      · exact toI32_pos s.next hs (by omega)
      · have hnext : ((regCreate s rules).1).next = s.next + 1 :=
          Nat.mod_eq_of_lt (by omega)
        exact ih (regCreate s rules).1 (by rw [hnext]; omega) (by rw [hnext]; omega) h hh
    | destroy h' =>
      have hcc : createCount (Op.destroy h' :: ops) = createCount ops := rfl
      rw [hcc] at hb
      simp only [returnedHandles] at hh
      have hnext : (destroy_matcher s h').next = s.next := destroy_next s h'
      exact ih (destroy_matcher s h') (by rw [hnext]; omega) (by rw [hnext]; omega) h hh

/-- C6 (amended): for every operation sequence with fewer than `2^31`
creates, every handle returned by a successful create is positive (so 0
and negatives are never assigned), every live registry key is positive,
and at every intermediate point the id about to be assigned is absent from
the registry — no handle is reused while its rule set is alive.  (Beyond
`2^31` creates the `u32` counter makes `id as i32` non-positive, and at
`2^32` it wraps and reuses ids: see the counterexample.) -/
theorem C6_handle_allocation (ops : List Op) (hc : createCount ops < 2 ^ 31) :
    (∀ h ∈ returnedHandles initState ops, 0 < h) ∧
    (∀ e ∈ (run initState ops).tbl, 0 < e.1) ∧
    (∀ pre rest, ops = pre ++ rest →
      lookup (run initState pre) (run initState pre).next = none) := by
  have hinv0 : EngineInv initState := ⟨by decide, by intro e he; simp [initState] at he⟩
  refine ⟨?_, ?_, ?_⟩
  · exact handles_pos ops initState (by decide) (by simp [initState]; omega)
  · intro e he
    have := run_inv ops initState hinv0 (by simp [initState]; omega)
    exact (this.1.2 e he).1
  · intro pre rest hsplit
    have hpre : createCount pre ≤ createCount ops := by
      rw [hsplit, createCount_append]; omega
    have := run_inv pre initState hinv0 (by simp [initState]; omega)
    apply lookup_eq_none_of_noKey
    intro e he
    have := this.1.2 e he
    omega

/-- Witness for C6 at a concrete operation sequence. -/
theorem C6_witness :
    (∀ h ∈ returnedHandles initState [Op.create [], Op.destroy 1, Op.create []], 0 < h) ∧
    (∀ e ∈ (run initState [Op.create [], Op.destroy 1, Op.create []]).tbl, 0 < e.1) ∧
    (∀ pre rest, [Op.create [], Op.destroy 1, Op.create []] = pre ++ rest →
      lookup (run initState pre) (run initState pre).next = none) :=
  C6_handle_allocation [Op.create [], Op.destroy 1, Op.create []] (by norm_num [createCount])

/-- Counterexample to C6 as stated: the `2^31`-th create succeeds (it
stores its rule set in the registry) yet returns a non-positive handle,
because `NEXT_ID as i32` is negative from `2^31` on. -/
theorem create_matcher_empty_ret (mem : Nat → Nat) (s : EngineState) :
    (create_matcher mem s 0 0).2 = toI32 s.next := rfl

theorem C6_wraparound_counterexample :
    (create_matcher (fun _ => 0) (createN (2 ^ 31 - 1) initState) 0 0).2 ≤ 0 ∧
    (create_matcher (fun _ => 0) (createN (2 ^ 31 - 1) initState) 0 0).1.tbl
      = ((createN (2 ^ 31 - 1) initState).next, []) ::
          (createN (2 ^ 31 - 1) initState).tbl := by
  have hn : (createN (2 ^ 31 - 1) initState).next = 2 ^ 31 := by
    have h1 : initState.next < 2 ^ 32 := by decide
    rw [createN_next _ _ h1]
    decide
  constructor
  · rw [create_matcher_empty_ret, hn]
    unfold toI32
    norm_num
  · rfl

/-- C8: during matcher creation, a line that is not valid UTF-8 or fails
to parse is dropped without aborting compilation of the other lines and
without any error for that line; the surviving rules keep their relative
order (the rule list is exactly the one compiled without the bad
line). -/
theorem C8_bad_line_dropped (pre post : List (List Nat)) (bad : List Nat)
    (hbad : decodeUtf8 bad = none ∨ ∃ cs, decodeUtf8 bad = some cs ∧ parseLine cs = none) :
    compileLines (pre ++ bad :: post) = compileLines (pre ++ post) := by
  have hnone : lineToRule bad = none := by
    rcases hbad with h | ⟨cs, h1, h2⟩
    · simp [lineToRule, h]
    · simp [lineToRule, h1, h2]
  unfold compileLines
  rw [List.filterMap_append, List.filterMap_append]
  congr 1
  simp [List.filterMap_cons, hnone]

/-- Witness for C8: dropping the invalid-UTF-8 line `[0xFF]` between the
lines `"*.log"` and `"a"` leaves the compiled rules unchanged. -/
theorem C8_witness :
    compileLines ([[42, 46, 108, 111, 103]] ++ [255] :: [[97]])
      = compileLines ([[42, 46, 108, 111, 103]] ++ [[97]]) :=
  C8_bad_line_dropped [[42, 46, 108, 111, 103]] [[97]] [255] (Or.inl (by decide))

/-- A `MatchResult` discriminant is never negative. -/
theorem toCode_nonneg (m : MatchResult) : 0 ≤ m.toCode := by
  cases m <;> decide

/-- C7: whenever `batch_filter` succeeds (it wrote the result-info pair),
a kept count of zero comes with both written fields zero, and a positive
kept count comes with a non-zero written address and a written length
equal to the byte length of the newline-joined kept lines. -/
theorem C7_result_info (al : Nat → Nat) (s : EngineState) (mem : Nat → Nat)
    (hnd pp pl ip : Int) (hal : ∀ n, al n ≠ 0) (c : Int) (w : Nat × Nat)
    (hrun : batch_filter al s mem hnd pp pl ip = (c, some w)) :
    (c = 0 → w = (0, 0)) ∧
    (0 < c →
      w.1 ≠ 0 ∧
      ∃ rules cs, lookup s hnd.toNat = some rules ∧
        decodeUtf8 (if pl = 0 then [] else readMem mem pp.toNat pl.toNat) = some cs ∧
        w.2 = (String.intercalate "\n" (filter_paths rules (String.mk cs))).utf8ByteSize ∧
        c = ((filter_paths rules (String.mk cs)).length : Int)) := by
  unfold batch_filter at hrun
  split at hrun
  · simp at hrun
  split at hrun
  · simp at hrun
  split at hrun
  · simp at hrun
  split at hrun
  · simp at hrun
  rename_i cs hcs
  split at hrun
  · simp at hrun
  rename_i rules hrules
  simp only [] at hrun
  split at hrun
  · rename_i hempty
    have hc : c = 0 ∧ w = (0, 0) := by
      have := hrun
      simp only [Prod.mk.injEq, Option.some.injEq] at this
      exact ⟨this.1.symm, this.2.symm⟩
    exact ⟨fun _ => hc.2, fun hpos => absurd hc.1 (by omega)⟩
  · rename_i hempty
    have hc : c = ((filter_paths rules (String.mk cs)).length : Int)
        ∧ w = (al (String.intercalate "\n" (filter_paths rules (String.mk cs))).utf8ByteSize,
            (String.intercalate "\n" (filter_paths rules (String.mk cs))).utf8ByteSize) := by
      have := hrun
      simp only [Prod.mk.injEq, Option.some.injEq] at this
      exact ⟨this.1.symm, this.2.symm⟩
    constructor
    · intro h0
      rw [hc.1] at h0
      have : filter_paths rules (String.mk cs) = [] := by
        cases hl : filter_paths rules (String.mk cs) with
        | nil => rfl
        | cons a l =>
            rw [hl] at h0
            simp only [List.length_cons] at h0
            exact absurd h0 (by push_cast; omega)
      rw [this] at hempty
      simp at hempty
    · intro _
      refine ⟨?_, rules, cs, hrules, hcs, by rw [hc.2], hc.1⟩
      rw [hc.2]
      exact hal _

/-- Witness for C7: filtering `"b.txt"` through the `"*.log"` matcher
keeps one line; the written pair is the (non-zero) buffer address and the
5-byte length of the joined output. -/
theorem C7_witness :
    ((1 : Int) = 0 → ((1, 5) : Nat × Nat) = (0, 0)) ∧
    (0 < (1 : Int) →
      ((1, 5) : Nat × Nat).1 ≠ 0 ∧
      ∃ rules cs, lookup demoState (1 : Int).toNat = some rules ∧
        decodeUtf8 (if (5 : Int) = 0 then []
          else readMem demoMem (100 : Int).toNat (5 : Int).toNat) = some cs ∧
        ((1, 5) : Nat × Nat).2
          = (String.intercalate "\n" (filter_paths rules (String.mk cs))).utf8ByteSize ∧
        (1 : Int) = ((filter_paths rules (String.mk cs)).length : Int)) :=
  C7_result_info (fun _ => 1) demoState demoMem 1 100 5 8 (fun _ => Nat.one_ne_zero)
    1 (1, 5) (by decide)

/-- C10: a zero length is accepted at every boundary call even with a
null pointer: `create_matcher` with length 0 stores an empty rule set and
returns `NEXT_ID` as handle (positive while the counter is below `2^31`);
`is_match` with path length 0 evaluates the empty path and returns its
non-negative outcome code; `batch_filter` with paths length 0 succeeds
with count 0 and writes `(0, 0)`. -/
theorem C10_zero_length_buffers :
    (∀ (s : EngineState) (mem : Nat → Nat) (pp : Int),
      (create_matcher mem s pp 0).1.tbl = (s.next, []) :: s.tbl ∧
      (create_matcher mem s pp 0).2 = toI32 s.next ∧
      (0 < s.next → s.next < 2 ^ 31 → 0 < (create_matcher mem s pp 0).2)) ∧
    (∀ (s : EngineState) (mem : Nat → Nat) (hnd d : Int) (rules : List Rule),
      0 < hnd → lookup s hnd.toNat = some rules →
      is_match s mem hnd 0 0 d = (match_path rules (String.mk []) (d != 0)).toCode ∧
      0 ≤ is_match s mem hnd 0 0 d) ∧
    (∀ (al : Nat → Nat) (s : EngineState) (mem : Nat → Nat) (hnd pp ip : Int)
        (rules : List Rule),
      0 < hnd → ip ≠ 0 → lookup s hnd.toNat = some rules →
      batch_filter al s mem hnd pp 0 ip = (0, some (0, 0))) := by
  refine ⟨?_, ?_, ?_⟩
  · intro s mem pp
    refine ⟨rfl, rfl, ?_⟩
    intro h0 h1
    exact toI32_pos s.next h0 h1
  · intro s mem hnd d rules h1 h2
    have heq := is_match_found s mem hnd 0 0 d h1 (by omega) []
      (by rw [if_pos rfl]; rfl) rules h2
    refine ⟨heq, ?_⟩
    rw [heq]
    exact toCode_nonneg _
  · intro al s mem hnd pp ip rules h1 h2 h3
    unfold batch_filter
    rw [if_neg (by omega : ¬ hnd ≤ 0), if_neg h2, if_neg (by omega)]
    simp only [h3]
    rfl

/-- Witness for C10 at concrete states and arguments (null pointers,
zero lengths). -/
theorem C10_witness :
    ((create_matcher (fun _ => 0) initState 0 0).1.tbl
        = (initState.next, []) :: initState.tbl ∧
      (create_matcher (fun _ => 0) initState 0 0).2 = toI32 initState.next ∧
      (0 < initState.next → initState.next < 2 ^ 31 →
        0 < (create_matcher (fun _ => 0) initState 0 0).2)) ∧
    (is_match demoState (fun _ => 0) 1 0 0 0
        = (match_path (compileText "*.log") (String.mk []) ((0 : Int) != 0)).toCode ∧
      0 ≤ is_match demoState (fun _ => 0) 1 0 0 0) ∧
    batch_filter (fun _ => 1) demoState (fun _ => 0) 1 0 0 1 = (0, some (0, 0)) :=
  ⟨C10_zero_length_buffers.1 initState (fun _ => 0) 0,
   C10_zero_length_buffers.2.1 demoState (fun _ => 0) 1 0 (compileText "*.log")
     (by decide) (by decide),
   C10_zero_length_buffers.2.2 (fun _ => 1) demoState (fun _ => 0) 1 0 1
     (compileText "*.log") (by decide) (by decide) (by decide)⟩
